import Mathlib

/-
  Shallow embedding of processor/lookupprocessor/lookupsource/cache.go:
  a bounded key-value cache with TTL expiration, LRU-by-insertion eviction,
  and a lookup-decorator (WrapWithCache) that memoizes a lookup function.

  The Go map `entries map[string]*cacheEntry` is modelled as an association
  list with unique keys; `order []string` as a list of keys.  `time.Time` is
  modelled as `Int` (nanoseconds), with the zero time rendered as `none` in
  `CacheEntry.expiresAt` (Go's `IsZero`).  `time.Duration` is `Int`.
  Each operation takes the current instant `now` explicitly where the Go
  code calls `time.Now()`.
-/

set_option maxHeartbeats 1000000

namespace Lookupsource

/-- Mirrors `CacheConfig` (cache.go lines 12-23): enabled flag, size,
positive TTL and negative TTL (durations as integers). -/
structure CacheConfig where
  enabled : Bool
  size : Int
  ttl : Int
  negativeTTL : Int
deriving DecidableEq

/-- Mirrors `cacheEntry` (cache.go lines 25-29); `expiresAt = none` models
the zero `time.Time` (never expires). -/
structure CacheEntry (α : Type) where
  value : α
  found : Bool
  expiresAt : Option Int
deriving DecidableEq

variable {α ε : Type}

/-- Mirrors `cacheEntry.isExpired` (lines 31-36): zero expiry never expires,
otherwise expired when `now` is strictly after `expiresAt`. -/
def isExpired (now : Int) (e : CacheEntry α) : Bool :=
  match e.expiresAt with
  | none => false
  | some t => decide (t < now)

/-- Mirrors `Cache` (lines 38-43); the `sync.RWMutex` has no sequential
content and is omitted. -/
structure Cache (α : Type) where
  config : CacheConfig
  entries : List (String × CacheEntry α)
  order : List String
deriving DecidableEq

/-- Mirrors the local `size` normalization in `NewCache` (lines 46-49);
in the Go code this value is used only as the allocation hint for
`make(map...)` and `make([]string, 0, size)`. -/
def normalizedSize (cfg : CacheConfig) : Int :=
  if cfg.size ≤ 0 then 1000 else cfg.size

/-- Mirrors `NewCache` (lines 45-55): stores the config unchanged and starts
with empty `entries` and `order` (allocation capacity has no semantics). -/
def NewCache (cfg : CacheConfig) : Cache α :=
  ⟨cfg, [], []⟩

/-- Association-list lookup: the read `c.entries[key]` of the Go map. -/
def findEntry (key : String) : List (String × CacheEntry α) → Option (CacheEntry α)
  | [] => none
  | (k, e) :: rest => if k = key then some e else findEntry key rest

/-- Removal of a key from the association list: the Go `delete(c.entries, key)`. -/
def eraseEntry (key : String) : List (String × CacheEntry α) → List (String × CacheEntry α)
  | [] => []
  | (k, e) :: rest => if k = key then eraseEntry key rest else (k, e) :: eraseEntry key rest

/-- Map assignment `c.entries[key] = e`: replaces any binding of `key` and
binds `key` to `e` (position in the association list is representation only). -/
def mapSet (key : String) (e : CacheEntry α) (l : List (String × CacheEntry α)) :
    List (String × CacheEntry α) :=
  eraseEntry key l ++ [(key, e)]

/-- Removal of the first occurrence of `key` from the order slice: the loop
of `removeEntryLocked` (lines 139-144). -/
def removeFirst (key : String) : List String → List String
  | [] => []
  | k :: rest => if k = key then rest else k :: removeFirst key rest

/-- Mirrors `moveToEndLocked` (lines 149-157): moves the first occurrence of
`key` to the end of the order slice; if absent, does nothing. -/
def moveToEnd (key : String) : List String → List String
  | [] => []
  | k :: rest => if k = key then rest ++ [key] else k :: moveToEnd key rest

/-- Mirrors `removeEntryLocked` (lines 137-145): delete from the map and
remove the first occurrence from the order slice. -/
def Cache.removeEntry (c : Cache α) (key : String) : Cache α :=
  { c with entries := eraseEntry key c.entries, order := removeFirst key c.order }

/-- Mirrors `get` (lines 59-76).  Returns `((value, lookupFound, cacheHit),
cache-after)`: `nil` results are `none`; an expired entry is removed as a
side effect. -/
def Cache.get (c : Cache α) (now : Int) (key : String) :
    (Option α × Bool × Bool) × Cache α :=
  match findEntry key c.entries with
  | none => ((none, false, false), c)
  | some e =>
    if isExpired now e then ((none, false, false), c.removeEntry key)
    else ((some e.value, e.found, true), c)

/-- The TTL chosen by `set` (lines 83-89): `config.TTL` for found results,
`config.NegativeTTL` for not-found results. -/
def entryTTL (cfg : CacheConfig) (found : Bool) : Int :=
  if found then cfg.ttl else cfg.negativeTTL

/-- The entry stored by `set` (lines 91-94, 97-101, 114-118): `expiresAt`
is `now + ttl` when the chosen ttl is positive, otherwise the zero time. -/
def newEntry (cfg : CacheConfig) (now : Int) (value : α) (found : Bool) :
    CacheEntry α :=
  ⟨value, found,
    if 0 < entryTTL cfg found then some (now + entryTTL cfg found) else none⟩

/-- The eviction loop of `set` (lines 108-112): while
`len(entries) >= config.Size && len(order) > 0`, delete `order[0]` from the
map and pop it from the order slice. -/
def evictLoop (s : Int) :
    List (String × CacheEntry α) → List String →
      List (String × CacheEntry α) × List String
  | entries, [] => (entries, [])
  | entries, oldest :: rest =>
      if s ≤ (entries.length : Int) then evictLoop s (eraseEntry oldest entries) rest
      else (entries, oldest :: rest)

/-- Mirrors `set` (lines 79-120): negative-caching no-op guard, then either
in-place overwrite plus move-to-end for an existing key, or eviction down to
room followed by insertion at the most-recently-used end. -/
def Cache.set (c : Cache α) (now : Int) (key : String) (value : α) (found : Bool) :
    Cache α :=
  if found = false ∧ c.config.negativeTTL = 0 then c
  else
    let e := newEntry c.config now value found
    if (findEntry key c.entries).isSome then
      { c with entries := mapSet key e c.entries, order := moveToEnd key c.order }
    else
      let p := evictLoop c.config.size c.entries c.order
      { c with entries := mapSet key e p.1, order := p.2 ++ [key] }

/-- Mirrors `Clear` (lines 122-127). -/
def Cache.Clear (c : Cache α) : Cache α :=
  { c with entries := [], order := [] }

/-- Mirrors `Size` (lines 129-133): the resident entry count. -/
def Cache.Size (c : Cache α) : Nat :=
  c.entries.length

/-- The closure returned by `WrapWithCache` (lines 179-191) for a non-nil,
enabled cache: on hit return the cached pair with no error and do not invoke
the wrapped function; on miss invoke it: an error propagates with
`(nil, false)` and no `set`; success is stored via `set` and returned.
Result: `((value, found, error), cache-after, wrapped-invocation-count)`.
(When the cache is nil or disabled, `WrapWithCache` returns the wrapped
function unchanged; that bypass creates no closure and is not modelled.) -/
def wrappedLookup (c : Cache α) (fn : String → α × Bool × Option ε)
    (now : Int) (key : String) :
    (Option α × Bool × Option ε) × Cache α × Nat :=
  let g := c.get now key
  if g.1.2.2 then ((g.1.1, g.1.2.1, none), g.2, 0)
  else
    let r := fn key
    match r.2.2 with
    | some err => ((none, false, some err), g.2, 1)
    | none => ((some r.1, r.2.1, none), g.2.set now key r.1 r.2.1, 1)

/-- Folding a list of `set` calls (key, value, found) over a cache, all at
instant `now`. -/
def applySets (now : Int) : Cache α → List (String × α × Bool) → Cache α
  | c, [] => c
  | c, (k, v, f) :: rest => applySets now (c.set now k v f) rest

/-- Well-formedness: the keys of `entries` are, up to order, exactly the
elements of `order`, and `order` has no duplicate — i.e. every key of the
map appears exactly once in the order slice and vice versa. -/
def WF (c : Cache α) : Prop :=
  (c.entries.map Prod.fst).Perm c.order ∧ c.order.Nodup

theorem findEntry_eq_none_iff (key : String) (l : List (String × CacheEntry α)) :
    findEntry key l = none ↔ key ∉ l.map Prod.fst := by
  induction l with
  | nil => simp [findEntry]
  | cons p rest ih =>
    obtain ⟨k, e⟩ := p
    by_cases h : k = key
    · subst h; simp [findEntry]
    · simp [findEntry, h, ih, Ne.symm h]

theorem findEntry_isSome_iff (key : String) (l : List (String × CacheEntry α)) :
    (findEntry key l).isSome = true ↔ key ∈ l.map Prod.fst := by
  rw [Option.isSome_iff_ne_none, ne_eq, findEntry_eq_none_iff, not_not]

theorem eraseEntry_of_not_mem {key : String} {l : List (String × CacheEntry α)}
    (h : key ∉ l.map Prod.fst) : eraseEntry key l = l := by
  induction l with
  | nil => rfl
  | cons p rest ih =>
    obtain ⟨k, e⟩ := p
    simp only [List.map_cons, List.mem_cons] at h
    push_neg at h
    simp [eraseEntry, Ne.symm h.1, ih h.2]

theorem map_fst_eraseEntry_of_nodup {key : String} {l : List (String × CacheEntry α)}
    (h : (l.map Prod.fst).Nodup) :
    (eraseEntry key l).map Prod.fst = (l.map Prod.fst).erase key := by
  induction l with
  | nil => rfl
  | cons p rest ih =>
    obtain ⟨k, e⟩ := p
    simp only [List.map_cons, List.nodup_cons] at h
    by_cases hk : k = key
    · subst hk
      simp [eraseEntry, eraseEntry_of_not_mem h.1, List.erase_cons_head]
    · simp [eraseEntry, hk, ih h.2, List.erase_cons_tail,
        (by simpa using hk : ¬ (k == key) = true)]

theorem removeFirst_eq_erase (key : String) (l : List String) :
    removeFirst key l = l.erase key := by
  induction l with
  | nil => rfl
  | cons k rest ih =>
    by_cases h : k = key
    · subst h; simp [removeFirst, List.erase_cons_head]
    · simp [removeFirst, h, ih, List.erase_cons_tail,
        (by simpa using h : ¬ (k == key) = true)]

theorem moveToEnd_of_not_mem {key : String} {l : List String} (h : key ∉ l) :
    moveToEnd key l = l := by
  induction l with
  | nil => rfl
  | cons k rest ih =>
    simp only [List.mem_cons] at h
    push_neg at h
    simp [moveToEnd, Ne.symm h.1, ih h.2]

theorem moveToEnd_of_mem {key : String} {l : List String} (h : key ∈ l) :
    moveToEnd key l = l.erase key ++ [key] := by
  induction l with
  | nil => simp at h
  | cons k rest ih =>
    by_cases hk : k = key
    · subst hk; simp [moveToEnd, List.erase_cons_head]
    · have : key ∈ rest := by
        rcases List.mem_cons.mp h with h1 | h1
        · exact absurd h1.symm hk
        · exact h1
      simp [moveToEnd, hk, ih this, List.erase_cons_tail,
        (by simpa using hk : ¬ (k == key) = true)]

theorem findEntry_eraseEntry_self (key : String) (l : List (String × CacheEntry α)) :
    findEntry key (eraseEntry key l) = none := by
  induction l with
  | nil => rfl
  | cons p rest ih =>
    obtain ⟨k, e⟩ := p
    by_cases h : k = key
    · subst h; simpa [eraseEntry] using ih
    · simpa [eraseEntry, h, findEntry] using ih

theorem findEntry_eraseEntry_ne {k' key : String} (h : k' ≠ key)
    (l : List (String × CacheEntry α)) :
    findEntry k' (eraseEntry key l) = findEntry k' l := by
  induction l with
  | nil => rfl
  | cons p rest ih =>
    obtain ⟨k, e⟩ := p
    by_cases hk : k = key
    · subst hk
      simp [eraseEntry, findEntry, Ne.symm h, ih]
    · by_cases hk' : k = k'
      · subst hk'; simp [eraseEntry, hk, findEntry]
      · simp [eraseEntry, hk, findEntry, hk', ih]

theorem findEntry_append (key : String) (l₁ l₂ : List (String × CacheEntry α)) :
    findEntry key (l₁ ++ l₂) =
      match findEntry key l₁ with
      | some e => some e
      | none => findEntry key l₂ := by
  induction l₁ with
  | nil => simp [findEntry]
  | cons p rest ih =>
    obtain ⟨k, e⟩ := p
    by_cases h : k = key
    · subst h; simp [findEntry]
    · simpa [findEntry, h] using ih

theorem findEntry_mapSet_self (key : String) (e : CacheEntry α)
    (l : List (String × CacheEntry α)) :
    findEntry key (mapSet key e l) = some e := by
  rw [mapSet, findEntry_append, findEntry_eraseEntry_self]
  simp [findEntry]

theorem findEntry_mapSet_ne {k' key : String} (h : k' ≠ key) (e : CacheEntry α)
    (l : List (String × CacheEntry α)) :
    findEntry k' (mapSet key e l) = findEntry k' l := by
  rw [mapSet, findEntry_append, findEntry_eraseEntry_ne h]
  cases hf : findEntry k' l with
  | some e' => rfl
  | none => simp [findEntry, Ne.symm h]

theorem map_fst_mapSet_of_nodup {key : String} {e : CacheEntry α}
    {l : List (String × CacheEntry α)} (h : (l.map Prod.fst).Nodup) :
    (mapSet key e l).map Prod.fst = (l.map Prod.fst).erase key ++ [key] := by
  simp [mapSet, map_fst_eraseEntry_of_nodup h]

theorem nodup_append_singleton {l : List String} {k : String}
    (h : l.Nodup) (hk : k ∉ l) : (l ++ [k]).Nodup := by
  simp [List.nodup_append, h, hk]

theorem evictLoop_spec (s : Int) (entries : List (String × CacheEntry α))
    (order : List String) (hp : (entries.map Prod.fst).Perm order)
    (hnd : order.Nodup) :
    ((evictLoop s entries order).1.map Prod.fst).Perm (evictLoop s entries order).2 ∧
    (evictLoop s entries order).2.Nodup ∧
    (∀ k, k ∈ (evictLoop s entries order).2 → k ∈ order) ∧
    (s ≤ (((evictLoop s entries order).1.length : Int)) → (evictLoop s entries order).2 = []) := by
  induction order generalizing entries with
  | nil => exact ⟨hp, List.nodup_nil, fun k hk => hk, fun _ => rfl⟩
  | cons oldest rest ih =>
    have hmnd : (entries.map Prod.fst).Nodup := (List.Perm.nodup_iff hp).mpr hnd
    have hndr : rest.Nodup := hnd.of_cons
    by_cases h : s ≤ (entries.length : Int)
    · have hp' : ((eraseEntry oldest entries).map Prod.fst).Perm rest := by
        rw [map_fst_eraseEntry_of_nodup hmnd]
        exact (hp.erase oldest).trans (by rw [List.erase_cons_head])
      have := ih (eraseEntry oldest entries) hp' hndr
      simp only [evictLoop, if_pos h]
      exact ⟨this.1, this.2.1, fun k hk => List.mem_cons_of_mem _ (this.2.2.1 k hk),
        this.2.2.2⟩
    · simp only [evictLoop, if_neg h]
      exact ⟨hp, hnd, fun k hk => hk, fun hle => absurd hle h⟩

theorem config_set (c : Cache α) (now : Int) (k : String) (v : α) (f : Bool) :
    (c.set now k v f).config = c.config := by
  unfold Cache.set
  split
  · rfl
  · split <;> rfl

theorem wf_set (c : Cache α) (now : Int) (k : String) (v : α) (f : Bool)
    (h : WF c) : WF (c.set now k v f) := by
  obtain ⟨hp, hnd⟩ := h
  have hmnd : (c.entries.map Prod.fst).Nodup := (List.Perm.nodup_iff hp).mpr hnd
  unfold Cache.set
  split
  · exact ⟨hp, hnd⟩
  · split
    · -- key already present: overwrite in place, move to end
      next hex =>
      have hkmem : k ∈ c.entries.map Prod.fst := (findEntry_isSome_iff _ _).mp hex
      have hkord : k ∈ c.order := hp.mem_iff.mp hkmem
      refine ⟨?_, ?_⟩
      · rw [map_fst_mapSet_of_nodup hmnd, moveToEnd_of_mem hkord]
        exact (hp.erase k).append_right [k]
      · rw [moveToEnd_of_mem hkord]
        exact nodup_append_singleton (hnd.erase k)
          (fun hmem => ((hnd.mem_erase_iff).mp hmem).1 rfl)
    · -- new key: evict, then insert at the end
      next hex =>
      have hkabs : k ∉ c.entries.map Prod.fst := by
        rw [← findEntry_eq_none_iff]
        exact Option.not_isSome_iff_eq_none.mp hex
      have hkord : k ∉ c.order := fun hk => hkabs (hp.mem_iff.mpr hk)
      obtain ⟨ep, ednd, esub, -⟩ :=
        evictLoop_spec c.config.size c.entries c.order hp hnd
      have hk2 : k ∉ (evictLoop c.config.size c.entries c.order).2 :=
        fun hk => hkord (esub k hk)
      have hk1 : k ∉ (evictLoop c.config.size c.entries c.order).1.map Prod.fst :=
        fun hk => hk2 (ep.mem_iff.mp hk)
      refine ⟨?_, ?_⟩
      · show ((mapSet k (newEntry c.config now v f)
            (evictLoop c.config.size c.entries c.order).1).map Prod.fst).Perm
            ((evictLoop c.config.size c.entries c.order).2 ++ [k])
        rw [mapSet, eraseEntry_of_not_mem hk1, List.map_append]
        exact ep.append_right [k]
      · show ((evictLoop c.config.size c.entries c.order).2 ++ [k]).Nodup
        exact nodup_append_singleton ednd hk2

theorem wf_get (c : Cache α) (now : Int) (k : String) (h : WF c) :
    WF (c.get now k).2 := by
  obtain ⟨hp, hnd⟩ := h
  have hmnd : (c.entries.map Prod.fst).Nodup := (List.Perm.nodup_iff hp).mpr hnd
  unfold Cache.get
  cases hf : findEntry k c.entries with
  | none => exact ⟨hp, hnd⟩
  | some e =>
    by_cases hexp : isExpired now e = true
    · simp only [hexp, if_true]
      refine ⟨?_, ?_⟩
      · show ((eraseEntry k c.entries).map Prod.fst).Perm (removeFirst k c.order)
        rw [map_fst_eraseEntry_of_nodup hmnd, removeFirst_eq_erase]
        exact hp.erase k
      · show (removeFirst k c.order).Nodup
        rw [removeFirst_eq_erase]
        exact hnd.erase k
    · simp only [Bool.not_eq_true] at hexp
      simp only [hexp, Bool.false_eq_true, if_false]
      exact ⟨hp, hnd⟩

theorem wf_clear (c : Cache α) : WF c.Clear :=
  ⟨List.Perm.refl _, List.nodup_nil⟩

theorem wf_newCache (cfg : CacheConfig) : WF (NewCache cfg : Cache α) :=
  ⟨List.Perm.refl _, List.nodup_nil⟩

theorem Size_set_le (c : Cache α) (now : Int) (k : String) (v : α) (f : Bool)
    (h : WF c) (h0 : 0 < c.config.size) (hsz : c.Size ≤ c.config.size.toNat) :
    (c.set now k v f).Size ≤ c.config.size.toNat := by
  obtain ⟨hp, hnd⟩ := h
  have hmnd : (c.entries.map Prod.fst).Nodup := (List.Perm.nodup_iff hp).mpr hnd
  unfold Cache.set
  split
  · exact hsz
  · split
    · next hex =>
      have hkmem : k ∈ c.entries.map Prod.fst := (findEntry_isSome_iff _ _).mp hex
      show (mapSet k (newEntry c.config now v f) c.entries).length ≤ c.config.size.toNat
      have hL : (c.entries.map Prod.fst).length = c.entries.length :=
        List.length_map _ _
      have h1 : (mapSet k (newEntry c.config now v f) c.entries).length
          = ((mapSet k (newEntry c.config now v f) c.entries).map Prod.fst).length :=
        (List.length_map _ _).symm
      have hm := List.length_erase_of_mem hkmem
      have hpos := List.length_pos_of_mem hkmem
      have hsz' : c.entries.length ≤ c.config.size.toNat := hsz
      rw [h1, map_fst_mapSet_of_nodup hmnd, List.length_append, hm]
      simp only [List.length_singleton]
      omega
    · next hex =>
      have hkabs : k ∉ c.entries.map Prod.fst := by
        rw [← findEntry_eq_none_iff]
        exact Option.not_isSome_iff_eq_none.mp hex
      obtain ⟨ep, -, esub, estop⟩ :=
        evictLoop_spec c.config.size c.entries c.order hp hnd
      have hkord : k ∉ c.order := fun hk => hkabs (hp.mem_iff.mpr hk)
      have hk1 : k ∉ (evictLoop c.config.size c.entries c.order).1.map Prod.fst :=
        fun hk => hkord (esub k (ep.mem_iff.mp hk))
      show (mapSet k (newEntry c.config now v f)
        (evictLoop c.config.size c.entries c.order).1).length ≤ c.config.size.toNat
      rw [mapSet, eraseEntry_of_not_mem hk1, List.length_append]
      simp only [List.length_singleton]
      by_cases hle : c.config.size ≤
          ((evictLoop c.config.size c.entries c.order).1.length : Int)
      · have h2 := estop hle
        rw [h2] at ep
        have h3 : (evictLoop c.config.size c.entries c.order).1.map Prod.fst = [] :=
          List.perm_nil.mp ep
        have h4 : (evictLoop c.config.size c.entries c.order).1 = [] :=
          List.map_eq_nil_iff.mp h3
        rw [h4] at hle
        simp at hle
        omega
      · push_neg at hle
        omega

theorem applySets_inv (now : Int) (ops : List (String × α × Bool)) (c : Cache α)
    (h0 : 0 < c.config.size) (hwf : WF c) (hsz : c.Size ≤ c.config.size.toNat) :
    WF (applySets now c ops) ∧ (applySets now c ops).Size ≤ c.config.size.toNat := by
  induction ops generalizing c with
  | nil => exact ⟨hwf, hsz⟩
  | cons op rest ih =>
    obtain ⟨k, v, f⟩ := op
    have hcfg : (c.set now k v f).config = c.config := config_set c now k v f
    have h1 := ih (c.set now k v f) (by rw [hcfg]; exact h0)
      (wf_set c now k v f hwf)
      (by rw [hcfg]; exact Size_set_le c now k v f hwf h0 hsz)
    rw [hcfg] at h1
    exact h1

theorem get_of_absent {c : Cache α} (now : Int) {k : String}
    (h : findEntry k c.entries = none) :
    c.get now k = ((none, false, false), c) := by
  unfold Cache.get
  rw [h]

theorem get_of_live {c : Cache α} {now : Int} {k : String} {e : CacheEntry α}
    (h : findEntry k c.entries = some e) (hexp : isExpired now e = false) :
    c.get now k = ((some e.value, e.found, true), c) := by
  unfold Cache.get
  rw [h]
  simp [hexp]

theorem get_of_expired {c : Cache α} {now : Int} {k : String} {e : CacheEntry α}
    (h : findEntry k c.entries = some e) (hexp : isExpired now e = true) :
    c.get now k = ((none, false, false), c.removeEntry k) := by
  unfold Cache.get
  rw [h]
  simp [hexp]

theorem findEntry_set_self (c : Cache α) (now : Int) (k : String) (v : α) (f : Bool)
    (h : ¬ (f = false ∧ c.config.negativeTTL = 0)) :
    findEntry k (c.set now k v f).entries = some (newEntry c.config now v f) := by
  unfold Cache.set
  rw [if_neg h]
  split
  · show findEntry k (mapSet k (newEntry c.config now v f) c.entries) = _
    exact findEntry_mapSet_self _ _ _
  · show findEntry k (mapSet k (newEntry c.config now v f)
      (evictLoop c.config.size c.entries c.order).1) = _
    exact findEntry_mapSet_self _ _ _

theorem config_get (c : Cache α) (now : Int) (k : String) :
    (c.get now k).2.config = c.config := by
  unfold Cache.get
  cases hf : findEntry k c.entries with
  | none => rfl
  | some e =>
    by_cases hexp : isExpired now e = true
    · simp only [hexp, if_true]
      rfl
    · simp only [Bool.not_eq_true] at hexp
      simp only [hexp, Bool.false_eq_true, if_false]

theorem set_existing_spec (c : Cache α) (now : Int) (k : String) (v : α) (f : Bool)
    (hex : (findEntry k c.entries).isSome = true)
    (hno : ¬ (f = false ∧ c.config.negativeTTL = 0)) :
    (c.set now k v f).entries = mapSet k (newEntry c.config now v f) c.entries ∧
    (c.set now k v f).order = moveToEnd k c.order := by
  unfold Cache.set
  rw [if_neg hno]
  simp [hex]

theorem get_miss_not_resident {c : Cache α} {now : Int} {key : String}
    (hmiss : (c.get now key).1.2.2 = false) :
    findEntry key (c.get now key).2.entries = none := by
  cases hf : findEntry key c.entries with
  | none =>
    rw [get_of_absent now hf]
    exact hf
  | some e =>
    by_cases hexp : isExpired now e = true
    · rw [get_of_expired hf hexp]
      exact findEntry_eraseEntry_self key c.entries
    · simp only [Bool.not_eq_true] at hexp
      rw [get_of_live hf hexp] at hmiss
      simp at hmiss

theorem wrappedLookup_miss_ok {c : Cache α} {fn : String → α × Bool × Option ε}
    {now : Int} {key : String} {v : α} {f : Bool}
    (hmiss : (c.get now key).1.2.2 = false) (hfn : fn key = (v, f, none)) :
    wrappedLookup c fn now key =
      ((some v, f, none), (c.get now key).2.set now key v f, 1) := by
  unfold wrappedLookup
  simp [hmiss, hfn]

theorem wrappedLookup_miss_err {c : Cache α} {fn : String → α × Bool × Option ε}
    {now : Int} {key : String} {v : α} {f : Bool} {e : ε}
    (hmiss : (c.get now key).1.2.2 = false) (hfn : fn key = (v, f, some e)) :
    wrappedLookup c fn now key = ((none, false, some e), (c.get now key).2, 1) := by
  unfold wrappedLookup
  simp [hmiss, hfn]

theorem wrappedLookup_hit {c : Cache α} (fn : String → α × Bool × Option ε)
    {now : Int} {key : String}
    (hhit : (c.get now key).1.2.2 = true) :
    wrappedLookup c fn now key =
      (((c.get now key).1.1, (c.get now key).1.2.1, none), (c.get now key).2, 0) := by
  unfold wrappedLookup
  simp [hhit]

theorem wrappedLookup_invokes_of_miss {c : Cache α} {fn : String → α × Bool × Option ε}
    {now : Int} {key : String} (hmiss : (c.get now key).1.2.2 = false) :
    (wrappedLookup c fn now key).2.2 = 1 := by
  unfold wrappedLookup
  simp only [hmiss, Bool.false_eq_true, if_false]
  cases hfe : (fn key).2.2 <;> simp [hfe]

/-- C1: the claim fails on the code.  With `size = 0` the constructed cache
does not behave as a capacity-1000 cache: `NewCache` computes the normalized
default (1000) but uses it only as an allocation hint, while the eviction
loop of `set` compares against `config.Size` itself, so eviction fires on
every insertion: after two inserting `set` calls only one entry is resident
and the first key already misses. -/
theorem sizeZero_cache_evicts_to_one_entry :
    normalizedSize ⟨true, 0, 0, 0⟩ = 1000 ∧
    (((NewCache ⟨true, 0, 0, 0⟩ : Cache Nat).set 0 "k1" 1 true).set 0
      "k2" 2 true).Size = 1 ∧
    ((((NewCache ⟨true, 0, 0, 0⟩ : Cache Nat).set 0 "k1" 1 true).set 0
      "k2" 2 true).get 0 "k1").1.2.2 = false := by
  decide

/-- C2: for every cache constructed with capacity > 0 and every sequence of
`set` calls with pairwise distinct keys, after each call (i.e. after every
initial segment of the sequence) the resident entry count `Size` is at most
the capacity. -/
theorem set_sequence_size_le_capacity (cfg : CacheConfig) (h0 : 0 < cfg.size)
    (now : Int) (ops : List (String × α × Bool))
    (hdistinct : (ops.map fun o => o.1).Nodup)
    (p q : List (String × α × Bool)) (hsplit : ops = p ++ q) :
    (applySets now (NewCache cfg) p).Size ≤ cfg.size.toNat :=
  (applySets_inv now p (NewCache cfg) h0 (wf_newCache cfg) (Nat.zero_le _)).2

/-- C2 witness: a concrete capacity-2 cache and a three-element distinct-key
sequence, checked after its second call. -/
theorem set_sequence_size_le_capacity_witness :
    (applySets 0 (NewCache ⟨true, 2, 0, 0⟩ : Cache Nat)
      [("a", 1, true), ("b", 2, true)]).Size ≤ (2 : Int).toNat :=
  set_sequence_size_le_capacity ⟨true, 2, 0, 0⟩ (by decide) 0
    [("a", 1, true), ("b", 2, true), ("c", 3, true)] (by decide)
    [("a", 1, true), ("b", 2, true)] [("c", 3, true)] rfl

/-- C3: `set`, `get` (including its lazy expiry removal) and `Clear` all
preserve the invariant `WF`: the keys of the entries map are, up to order,
exactly the elements of the order sequence, and the order sequence has no
duplicates — every key of the map occurs in it exactly once, and vice
versa. -/
theorem operations_preserve_lockstep (c : Cache α) (now : Int) (k : String)
    (v : α) (f : Bool) (h : WF c) :
    WF (c.set now k v f) ∧ WF (c.get now k).2 ∧ WF c.Clear :=
  ⟨wf_set c now k v f h, wf_get c now k h, wf_clear c⟩

/-- C3 witness: the invariant is preserved on a concrete well-formed cache
whose `get` takes the expiry-removal path. -/
theorem operations_preserve_lockstep_witness :
    WF ((⟨⟨true, 3, 10, 0⟩, [("a", ⟨1, true, some 5⟩)], ["a"]⟩ : Cache Nat).set
      9 "a" 2 true) ∧
    WF ((⟨⟨true, 3, 10, 0⟩, [("a", ⟨1, true, some 5⟩)], ["a"]⟩ : Cache Nat).get
      9 "a").2 ∧
    WF (⟨⟨true, 3, 10, 0⟩, [("a", ⟨1, true, some 5⟩)], ["a"]⟩ : Cache Nat).Clear :=
  operations_preserve_lockstep
    (⟨⟨true, 3, 10, 0⟩, [("a", ⟨1, true, some 5⟩)], ["a"]⟩ : Cache Nat)
    9 "a" 2 true ⟨by decide, by decide⟩

/-- C4: `get key` returns a cache hit carrying the stored `(value, found)`
if and only if the key is present and not expired at `now`; every miss
returns `(none, false, false)`; a miss due to expiration removes the entry
from both the entries map and the order sequence; a miss due to absence
leaves the cache unchanged. -/
theorem get_hit_iff_present_unexpired (c : Cache α) (now : Int) (key : String) :
    ((c.get now key).1.2.2 = true ↔
      ∃ e, findEntry key c.entries = some e ∧ isExpired now e = false) ∧
    (∀ e, findEntry key c.entries = some e → isExpired now e = false →
      c.get now key = ((some e.value, e.found, true), c)) ∧
    ((c.get now key).1.2.2 = false → (c.get now key).1 = (none, false, false)) ∧
    (∀ e, findEntry key c.entries = some e → isExpired now e = true →
      (c.get now key).2.entries = eraseEntry key c.entries ∧
      (c.get now key).2.order = removeFirst key c.order) ∧
    (findEntry key c.entries = none → (c.get now key).2 = c) := by
  refine ⟨?_, ?_, ?_, ?_, ?_⟩
  · constructor
    · intro hhit
      cases hf : findEntry key c.entries with
      | none => rw [get_of_absent now hf] at hhit; simp at hhit
      | some e =>
        by_cases hexp : isExpired now e = true
        · rw [get_of_expired hf hexp] at hhit; simp at hhit
        · simp only [Bool.not_eq_true] at hexp
          exact ⟨e, rfl, hexp⟩
    · rintro ⟨e, hf, hexp⟩
      rw [get_of_live hf hexp]
  · intro e hf hexp
    exact get_of_live hf hexp
  · intro hmiss
    cases hf : findEntry key c.entries with
    | none => rw [get_of_absent now hf]
    | some e =>
      by_cases hexp : isExpired now e = true
      · rw [get_of_expired hf hexp]
      · simp only [Bool.not_eq_true] at hexp
        rw [get_of_live hf hexp] at hmiss
        simp at hmiss
  · intro e hf hexp
    rw [get_of_expired hf hexp]
    exact ⟨rfl, rfl⟩
  · intro hf
    rw [get_of_absent now hf]

/-- C4 witness: on a concrete cache holding one expired and one live entry,
the expired key's `get` removes it from both structures and the live key's
`get` is a hit carrying the stored pair. -/
theorem get_hit_iff_present_unexpired_witness :
    ((⟨⟨true, 10, 0, 0⟩, [("k1", ⟨1, true, some 5⟩), ("k2", ⟨2, true, some 20⟩)],
        ["k1", "k2"]⟩ : Cache Nat).get 9 "k1").2.entries =
      eraseEntry "k1" [("k1", ⟨1, true, some 5⟩), ("k2", ⟨2, true, some 20⟩)] ∧
    ((⟨⟨true, 10, 0, 0⟩, [("k1", ⟨1, true, some 5⟩), ("k2", ⟨2, true, some 20⟩)],
        ["k1", "k2"]⟩ : Cache Nat).get 9 "k1").2.order = removeFirst "k1" ["k1", "k2"] :=
  (get_hit_iff_present_unexpired
    (⟨⟨true, 10, 0, 0⟩, [("k1", ⟨1, true, some 5⟩), ("k2", ⟨2, true, some 20⟩)],
      ["k1", "k2"]⟩ : Cache Nat) 9 "k1").2.2.2.1
    ⟨1, true, some 5⟩ (by decide) (by decide)

/-- C5 counterexample: the claim as stated is false.  On a cache whose
`negativeTTL` is 0, a `set` for an existing key with `found = false` hits
the negative-caching no-op guard before the existing-key branch: the state
is unchanged, so the entry is not overwritten and the key is not moved to
the most-recently-used end of the order sequence. -/
theorem set_existing_key_counterexample :
    (findEntry "a" (⟨⟨true, 3, 0, 0⟩,
      [("a", ⟨1, true, none⟩), ("b", ⟨2, true, none⟩)], ["a", "b"]⟩ :
        Cache Nat).entries).isSome = true ∧
    (⟨⟨true, 3, 0, 0⟩, [("a", ⟨1, true, none⟩), ("b", ⟨2, true, none⟩)],
      ["a", "b"]⟩ : Cache Nat).set 7 "a" 9 false =
      ⟨⟨true, 3, 0, 0⟩, [("a", ⟨1, true, none⟩), ("b", ⟨2, true, none⟩)],
        ["a", "b"]⟩ ∧
    ¬ ((⟨⟨true, 3, 0, 0⟩, [("a", ⟨1, true, none⟩), ("b", ⟨2, true, none⟩)],
      ["a", "b"]⟩ : Cache Nat).set 7 "a" 9 false).order = moveToEnd "a" ["a", "b"] := by
  decide

/-- C5 (amended): provided the call is not the disabled-negative-caching
no-op (found = true or negativeTTL ≠ 0), a `set` on an existing key
overwrites that key's entry in place (every other binding is unchanged) and
moves the key to the most-recently-used end of the order sequence;
consequently, with capacity 3, after set of k1, k2, k3, then a second set of
k1, then set of k4, key k2 is evicted while k1, k3 and k4 remain hits. -/
theorem set_existing_key_refreshes_recency :
    (∀ (β : Type) (c : Cache β) (now : Int) (k : String) (v : β) (f : Bool),
      (findEntry k c.entries).isSome = true →
      ¬ (f = false ∧ c.config.negativeTTL = 0) →
      (∀ k', findEntry k' (c.set now k v f).entries =
          if k' = k then some (newEntry c.config now v f)
          else findEntry k' c.entries) ∧
      (c.set now k v f).order = moveToEnd k c.order ∧
      (k ∈ c.order → (c.set now k v f).order = c.order.erase k ++ [k])) ∧
    ((applySets 0 (NewCache ⟨true, 3, 0, 0⟩ : Cache Nat)
        [("k1", 1, true), ("k2", 2, true), ("k3", 3, true), ("k1", 10, true),
          ("k4", 4, true)]).get 0 "k2").1.2.2 = false ∧
    ((applySets 0 (NewCache ⟨true, 3, 0, 0⟩ : Cache Nat)
        [("k1", 1, true), ("k2", 2, true), ("k3", 3, true), ("k1", 10, true),
          ("k4", 4, true)]).get 0 "k1").1.2.2 = true ∧
    ((applySets 0 (NewCache ⟨true, 3, 0, 0⟩ : Cache Nat)
        [("k1", 1, true), ("k2", 2, true), ("k3", 3, true), ("k1", 10, true),
          ("k4", 4, true)]).get 0 "k3").1.2.2 = true ∧
    ((applySets 0 (NewCache ⟨true, 3, 0, 0⟩ : Cache Nat)
        [("k1", 1, true), ("k2", 2, true), ("k3", 3, true), ("k1", 10, true),
          ("k4", 4, true)]).get 0 "k4").1.2.2 = true := by
  refine ⟨?_, by decide, by decide, by decide, by decide⟩
  intro β c now k v f hex hno
  obtain ⟨he, ho⟩ := set_existing_spec c now k v f hex hno
  refine ⟨?_, ho, ?_⟩
  · intro k'
    by_cases hk : k' = k
    · subst hk
      rw [he, findEntry_mapSet_self]
      simp
    · rw [he, findEntry_mapSet_ne hk]
      simp [hk]
  · intro hmem
    rw [ho, moveToEnd_of_mem hmem]

/-- C5 witness: the amended in-place-update clause applied to a concrete
cache where the updated key starts at the least-recently-used end. -/
theorem set_existing_key_refreshes_recency_witness :
    ((⟨⟨true, 3, 5, 0⟩, [("a", ⟨1, true, none⟩), ("b", ⟨2, true, none⟩)],
      ["a", "b"]⟩ : Cache Nat).set 4 "a" 9 true).order =
      ["a", "b"].erase "a" ++ ["a"] :=
  (set_existing_key_refreshes_recency.1 Nat
    (⟨⟨true, 3, 5, 0⟩, [("a", ⟨1, true, none⟩), ("b", ⟨2, true, none⟩)],
      ["a", "b"]⟩ : Cache Nat) 4 "a" 9 true (by decide) (by decide)).2.2 (by decide)

/-- C6 counterexample: the claim as stated is false — with negativeTTL = 0 a
negative `set` is indeed a state-preserving no-op, but the subsequent
`get(key)` need not be a miss: when the key was already cached positively
the get is still a hit. -/
theorem negative_set_noop_counterexample :
    (⟨⟨true, 10, 0, 0⟩, [("k", ⟨1, true, none⟩)], ["k"]⟩ :
      Cache Nat).config.negativeTTL = 0 ∧
    (⟨⟨true, 10, 0, 0⟩, [("k", ⟨1, true, none⟩)], ["k"]⟩ : Cache Nat).set 0
      "k" 2 false = ⟨⟨true, 10, 0, 0⟩, [("k", ⟨1, true, none⟩)], ["k"]⟩ ∧
    (((⟨⟨true, 10, 0, 0⟩, [("k", ⟨1, true, none⟩)], ["k"]⟩ : Cache Nat).set 0
      "k" 2 false).get 0 "k").1.2.2 = true := by
  decide

/-- C6 (amended): with negativeTTL = 0, `set(key, value, false)` returns
without mutating any cache state, so a subsequent `get(key)` behaves exactly
as before the call — in particular it is a miss when the key is not
resident. -/
theorem negative_ttl_set_noop (c : Cache α) (now now' : Int) (k : String)
    (v : α) (h : c.config.negativeTTL = 0) :
    c.set now k v false = c ∧
    (findEntry k c.entries = none →
      ((c.set now k v false).get now' k).1.2.2 = false) := by
  have h1 : c.set now k v false = c := by
    unfold Cache.set
    rw [if_pos ⟨rfl, h⟩]
  refine ⟨h1, fun habs => ?_⟩
  rw [h1, get_of_absent now' habs]

/-- C6 witness: the no-op and the subsequent miss on a fresh cache without
the key. -/
theorem negative_ttl_set_noop_witness :
    (NewCache ⟨true, 10, 0, 0⟩ : Cache Nat).set 3 "k" 7 false =
      NewCache ⟨true, 10, 0, 0⟩ ∧
    (((NewCache ⟨true, 10, 0, 0⟩ : Cache Nat).set 3 "k" 7 false).get 4
      "k").1.2.2 = false :=
  ⟨(negative_ttl_set_noop (NewCache ⟨true, 10, 0, 0⟩) 3 4 "k" 7 rfl).1,
   (negative_ttl_set_noop (NewCache ⟨true, 10, 0, 0⟩) 3 4 "k" 7 rfl).2 rfl⟩

/-- C7 counterexample: the claim as stated is false.  On an enabled cache
with negativeTTL = 0 and a wrapped function that returns a not-found result
with no error, nothing is ever cached (so no entry can expire between the
calls and the cache stays in its initial empty state), yet two invocations
of the decorated function invoke the wrapped function twice, not once. -/
theorem decorator_memoization_counterexample :
    (NewCache ⟨true, 10, 0, 0⟩ : Cache Nat).config.enabled = true ∧
    (wrappedLookup (NewCache ⟨true, 10, 0, 0⟩ : Cache Nat)
      (fun _ => (0, false, (none : Option Unit))) 0 "k").2.1 =
      NewCache ⟨true, 10, 0, 0⟩ ∧
    (wrappedLookup (NewCache ⟨true, 10, 0, 0⟩ : Cache Nat)
        (fun _ => (0, false, (none : Option Unit))) 0 "k").2.2 +
      (wrappedLookup ((wrappedLookup (NewCache ⟨true, 10, 0, 0⟩ : Cache Nat)
          (fun _ => (0, false, (none : Option Unit))) 0 "k").2.1)
        (fun _ => (0, false, (none : Option Unit))) 0 "k").2.2 = 2 := by
  decide

/-- C7 (amended): on an enabled cache, if the first invocation with a key is
a cache miss, the wrapped function returns its result with no error, and the
result is actually cacheable (found = true or negativeTTL ≠ 0), and the
entry stored by the first call is not yet expired at the time of the second
call, then across the two invocations the wrapped function is invoked
exactly once — the second call is a cache hit that does not invoke it — and
the second call's return value equals the first's. -/
theorem decorator_memoization (c : Cache α) (fn : String → α × Bool × Option ε)
    (now now' : Int) (key : String) (v : α) (f : Bool)
    (hen : c.config.enabled = true)
    (hmiss : (c.get now key).1.2.2 = false)
    (hfn : fn key = (v, f, none))
    (hcacheable : ¬ (f = false ∧ c.config.negativeTTL = 0))
    (hfresh : isExpired now' (newEntry c.config now v f) = false) :
    (wrappedLookup c fn now key).1 = (some v, f, none) ∧
    (wrappedLookup c fn now key).2.2 = 1 ∧
    (wrappedLookup (wrappedLookup c fn now key).2.1 fn now' key).2.2 = 0 ∧
    (wrappedLookup (wrappedLookup c fn now key).2.1 fn now' key).1 =
      (wrappedLookup c fn now key).1 := by
  have h1 := wrappedLookup_miss_ok hmiss hfn
  have hcfg1 : (c.get now key).2.config = c.config := config_get c now key
  have hcacheable1 : ¬ (f = false ∧ (c.get now key).2.config.negativeTTL = 0) := by
    rw [hcfg1]
    exact hcacheable
  have hfind : findEntry key ((c.get now key).2.set now key v f).entries =
      some (newEntry c.config now v f) := by
    have h2 := findEntry_set_self (c.get now key).2 now key v f hcacheable1
    rw [hcfg1] at h2
    exact h2
  have hget2 : ((c.get now key).2.set now key v f).get now' key =
      ((some (newEntry c.config now v f).value,
        (newEntry c.config now v f).found, true),
        (c.get now key).2.set now key v f) :=
    get_of_live hfind hfresh
  have hhit2 : (((c.get now key).2.set now key v f).get now' key).1.2.2 = true := by
    rw [hget2]
  have h3 := wrappedLookup_hit fn hhit2
  rw [h1]
  refine ⟨rfl, rfl, ?_, ?_⟩
  · show (wrappedLookup ((c.get now key).2.set now key v f) fn now' key).2.2 = 0
    rw [h3]
  · show (wrappedLookup ((c.get now key).2.set now key v f) fn now' key).1 =
      (some v, f, none)
    rw [h3, hget2]
    rfl

/-- C7 witness: a fresh enabled cache with positive TTL 5, a succeeding
wrapped function, and a second call before the expiry instant. -/
theorem decorator_memoization_witness :
    (wrappedLookup (NewCache ⟨true, 10, 5, 0⟩ : Cache Nat)
      (fun _ => (7, true, (none : Option Unit))) 0 "k").1 = (some 7, true, none) ∧
    (wrappedLookup (NewCache ⟨true, 10, 5, 0⟩ : Cache Nat)
      (fun _ => (7, true, (none : Option Unit))) 0 "k").2.2 = 1 ∧
    (wrappedLookup (wrappedLookup (NewCache ⟨true, 10, 5, 0⟩ : Cache Nat)
        (fun _ => (7, true, (none : Option Unit))) 0 "k").2.1
      (fun _ => (7, true, (none : Option Unit))) 3 "k").2.2 = 0 ∧
    (wrappedLookup (wrappedLookup (NewCache ⟨true, 10, 5, 0⟩ : Cache Nat)
        (fun _ => (7, true, (none : Option Unit))) 0 "k").2.1
      (fun _ => (7, true, (none : Option Unit))) 3 "k").1 =
      (wrappedLookup (NewCache ⟨true, 10, 5, 0⟩ : Cache Nat)
        (fun _ => (7, true, (none : Option Unit))) 0 "k").1 :=
  decorator_memoization (NewCache ⟨true, 10, 5, 0⟩)
    (fun _ => (7, true, (none : Option Unit))) 0 3 "k" 7 true rfl (by decide)
    rfl (by decide) (by decide)

/-- C8 counterexample: the claim as stated is false.  When the miss that
precedes the failing wrapped call is due to expiration, the cache state is
not unchanged: the expired entry has been lazily removed, even though the
error is propagated and nothing is populated. -/
theorem error_caching_counterexample :
    (wrappedLookup (⟨⟨true, 10, 5, 0⟩, [("k", ⟨1, true, some 3⟩)], ["k"]⟩ :
        Cache Nat) (fun _ => (0, false, some "boom")) 10 "k").1 =
      (none, false, some "boom") ∧
    ¬ (wrappedLookup (⟨⟨true, 10, 5, 0⟩, [("k", ⟨1, true, some 3⟩)], ["k"]⟩ :
        Cache Nat) (fun _ => (0, false, some "boom")) 10 "k").2.1 =
      (⟨⟨true, 10, 5, 0⟩, [("k", ⟨1, true, some 3⟩)], ["k"]⟩ : Cache Nat) := by
  decide

/-- C8 (amended): on a cache miss where the wrapped function returns a
non-nil error, the decorated call propagates exactly that error and does not
populate the cache: the resulting cache is exactly the one left by the miss
itself (which at most lazily removed an expired entry), the key is not
resident afterwards, and a subsequent call with the same key invokes the
wrapped function again. -/
theorem error_propagates_and_not_cached (c : Cache α)
    (fn : String → α × Bool × Option ε) (now now' : Int) (key : String)
    (v : α) (f : Bool) (e : ε)
    (hmiss : (c.get now key).1.2.2 = false)
    (hfn : fn key = (v, f, some e)) :
    (wrappedLookup c fn now key).1 = (none, false, some e) ∧
    (wrappedLookup c fn now key).2.1 = (c.get now key).2 ∧
    findEntry key (wrappedLookup c fn now key).2.1.entries = none ∧
    (wrappedLookup (wrappedLookup c fn now key).2.1 fn now' key).2.2 = 1 := by
  have h1 := wrappedLookup_miss_err hmiss hfn
  have habs : findEntry key (c.get now key).2.entries = none :=
    get_miss_not_resident hmiss
  have hmiss2 : ((c.get now key).2.get now' key).1.2.2 = false := by
    rw [get_of_absent now' habs]
  rw [h1]
  exact ⟨rfl, rfl, habs, wrappedLookup_invokes_of_miss hmiss2⟩

/-- C8 witness: a fresh cache, a failing wrapped function; the error comes
back, the key stays absent, and the second call invokes the function
again. -/
theorem error_propagates_and_not_cached_witness :
    (wrappedLookup (NewCache ⟨true, 10, 0, 0⟩ : Cache Nat)
      (fun _ => (5, true, some "x")) 0 "k").1 = (none, false, some "x") ∧
    (wrappedLookup (NewCache ⟨true, 10, 0, 0⟩ : Cache Nat)
      (fun _ => (5, true, some "x")) 0 "k").2.1 =
      ((NewCache ⟨true, 10, 0, 0⟩ : Cache Nat).get 0 "k").2 ∧
    findEntry "k" (wrappedLookup (NewCache ⟨true, 10, 0, 0⟩ : Cache Nat)
      (fun _ => (5, true, some "x")) 0 "k").2.1.entries = none ∧
    (wrappedLookup (wrappedLookup (NewCache ⟨true, 10, 0, 0⟩ : Cache Nat)
        (fun _ => (5, true, some "x")) 0 "k").2.1
      (fun _ => (5, true, some "x")) 1 "k").2.2 = 1 :=
  error_propagates_and_not_cached (NewCache ⟨true, 10, 0, 0⟩)
    (fun _ => (5, true, some "x")) 0 1 "k" 5 true "x" (by decide) rfl

/-- C9: whenever, on a cache miss, the wrapped function returns (v, f, e)
with a non-nil error e, the decorated function returns value none and found
false together with that same error, discarding any value v and flag f the
wrapped function returned alongside it. -/
theorem error_result_discards_value_found (c : Cache α)
    (fn : String → α × Bool × Option ε) (now : Int) (key : String)
    (v : α) (f : Bool) (e : ε)
    (hmiss : (c.get now key).1.2.2 = false)
    (hfn : fn key = (v, f, some e)) :
    (wrappedLookup c fn now key).1 = (none, false, some e) := by
  rw [wrappedLookup_miss_err hmiss hfn]

/-- C9 witness: the wrapped function returns the non-nil value 42 and the
flag true together with an error; the decorated call discards both. -/
theorem error_result_discards_value_found_witness :
    (wrappedLookup (NewCache ⟨true, 10, 0, 0⟩ : Cache Nat)
      (fun _ => (42, true, some "oops")) 0 "k").1 = (none, false, some "oops") :=
  error_result_discards_value_found (NewCache ⟨true, 10, 0, 0⟩)
    (fun _ => (42, true, some "oops")) 0 "k" 42 true "oops" (by decide) rfl

end Lookupsource
